import Mathlib

/-!
# Verification of the LocalFiles MCP server (`app.py`)

A shallow embedding of the server's pure logic.  Paths are modelled as
parsed POSIX paths (an absoluteness flag plus a list of segments, mirroring
Python `pathlib.PurePath`: empty and `"."` segments are dropped at parse
time, `".."` segments are kept).  `Path.resolve()` is modelled, in a
filesystem without symlinks, as making the path absolute against the
process working directory and then eliminating `".."` segments.  The
filesystem itself is a finite map from canonical absolute paths (segment
lists) to file data, plus a set of directory paths.  Machine-level details
(OS errors on `stat`) are modelled with an explicit `statable` flag;
`open`/`read` are modelled by the stored byte list.
-/

namespace LocalFiles

/-- A parsed POSIX path, as `pathlib.PurePath` stores it: whether the path
is absolute, and the list of segments with empty and `"."` entries dropped
(`".."` entries are kept, as `PurePath` keeps them). -/
structure PyPath where
  absolute : Bool
  parts : List String
deriving Repr, DecidableEq

/-- Embeds `pathlib.PurePath(s)`: record whether the string starts with
`'/'` and split it on `'/'` into segments, dropping empty and `"."`
segments. -/
def parsePath (s : String) : PyPath :=
  { absolute := s.toList.head? == some '/'
    parts := (s.toList.splitOn '/').filterMap fun cs =>
      let t := String.mk cs
      if t = "" ∨ t = "." then none else some t }

/-- Embeds `str(p)` on a `PurePath`: join the segments with `'/'`, with a
leading `'/'` when absolute; the empty relative path prints as `"."`. -/
def renderPath (p : PyPath) : String :=
  if p.absolute then
    String.mk ('/' :: List.intercalate ['/'] (p.parts.map String.toList))
  else if p.parts = [] then "."
  else String.mk (List.intercalate ['/'] (p.parts.map String.toList))

/-- One step of `".."`/`"."` elimination during path resolution: `".."`
drops the last segment (staying at the root when already there, as POSIX
does), `"."` is a no-op, any other segment is appended. -/
def resolveStep (st : List String) (s : String) : List String :=
  if s = "." then st
  else if s = ".." then st.dropLast
  else st ++ [s]

/-- Resolve a parsed path against a working directory given as canonical
absolute segments: embeds `Path(s).resolve()` in a symlink-free
filesystem. -/
def resolveParsed (cwd : List String) (p : PyPath) : List String :=
  p.parts.foldl resolveStep (if p.absolute then [] else cwd)

/-- `Path(s).resolve()` on a path string. -/
def resolvePath (cwd : List String) (s : String) : List String :=
  resolveParsed cwd (parsePath s)

/-- `PurePath.name`: the last segment, or `""` for an empty path. -/
def pathName (p : PyPath) : String :=
  (p.parts.getLast?).getD ""

/-- `PurePath.suffix` of a name string: the substring from the last dot,
provided that dot is neither the first nor the last character of the
name (so `".bashrc"` and `"a."` have suffix `""`). -/
def nameSuffix (name : String) : String :=
  let cs := name.toList
  let tail := cs.reverse.takeWhile (· ≠ '.')
  if tail.length = cs.length then ""            -- no dot at all
  else if tail.length = 0 then ""               -- the last dot is the last character
  else if tail.length + 1 = cs.length then ""   -- the only dot is the first character
  else String.mk ('.' :: tail.reverse)

/-- `PurePath.suffix` of a parsed path. -/
def pathSuffix (p : PyPath) : String :=
  nameSuffix (pathName p)

/-- The server configuration (`load_config`'s result dictionary). -/
structure Config where
  allowed_directories : List String
  max_file_size : Int
  allowed_extensions : List String
deriving Repr, DecidableEq

/-- Data of one regular file in the modelled filesystem: its bytes, its
modification time, and whether `stat` succeeds on it (`statable = false`
models an `OSError` from `stat`). -/
structure FileData where
  bytes : List Nat
  mtime : Int
  statable : Bool
deriving Repr, DecidableEq

/-- The modelled filesystem: the process working directory (canonical
absolute segments), the regular files keyed by canonical absolute path,
and the set of directories. No symlinks are modelled. -/
structure FS where
  cwd : List String
  files : List (List String × FileData)
  dirs : List (List String)
deriving Repr, DecidableEq

/-- Look up a regular file by canonical absolute path. -/
def FS.lookupFile (fs : FS) (k : List String) : Option FileData :=
  (fs.files.find? fun kv => kv.1 = k).map Prod.snd

/-- `os.stat` on a canonical absolute path: size and mtime of a statable
regular file, `none` (an `OSError`) otherwise. `st_size` is the byte
count. Directories are never the subject of a `stat` in the claims, so
only regular files are statable here. -/
def FS.statOf (fs : FS) (k : List String) : Option (Nat × Int) :=
  (fs.lookupFile k).bind fun fd =>
    if fd.statable then some (fd.bytes.length, fd.mtime) else none

/-- `Path.is_file()`: true iff `stat` succeeds and finds a regular file
(`is_file` swallows `OSError` and returns `False`). -/
def FS.isFile (fs : FS) (k : List String) : Bool :=
  (fs.statOf k).isSome

/-- `Path.is_dir()`. -/
def FS.isDir (fs : FS) (k : List String) : Bool :=
  fs.dirs.contains k

/-- `Path.exists()`: a statable regular file or a directory
(`exists` also swallows `OSError`). -/
def FS.pyExists (fs : FS) (k : List String) : Bool :=
  fs.isFile k || fs.isDir k

/-- Python `str.lower()` on one character (the extensions involved are
ASCII, where `str.lower` maps only `A`–`Z`). -/
def pyLowerChar (c : Char) : Char :=
  if 65 ≤ c.toNat ∧ c.toNat ≤ 90 then Char.ofNat (c.toNat + 32) else c

/-- Python `str.lower()`. -/
def pyLower (s : String) : String := String.mk (s.toList.map pyLowerChar)

/-- An ASCII whitespace character, as Python `str.strip()` removes. -/
def isSpaceChar (c : Char) : Bool :=
  c = ' ' || c = '\t' || c = '\n' || c = '\r' || c.toNat = 11 || c.toNat = 12

/-- Python `str.strip()` with no argument. -/
def pyStrip (s : String) : String :=
  String.mk (((s.toList.dropWhile isSpaceChar).reverse.dropWhile isSpaceChar).reverse)

/-- Embeds `is_file_allowed(file_path, config)` from `app.py`:
size check first (failing closed on a `stat` error), then the
extension check against `config['allowed_extensions']`. -/
def is_file_allowed (fs : FS) (p : PyPath) (config : Config) : Bool :=
  match fs.statOf (resolveParsed fs.cwd p) with
  | none => false
  | some st =>
    if (st.1 : Int) > config.max_file_size then false
    else if config.allowed_extensions ≠ [] &&
        !(config.allowed_extensions.contains (pyLower (pathSuffix p))) then false
    else true

/-- Embeds `is_path_allowed(file_path, config)` from `app.py`: resolve the
candidate, and for each allowed directory resolve it and test
`file_path.relative_to(allowed_path)`, which succeeds exactly when the
allowed directory's segments are a prefix of the candidate's segments. -/
def is_path_allowed (cwd : List String) (file_path : String) (config : Config) : Bool :=
  config.allowed_directories.any fun allowed_dir =>
    (resolvePath cwd allowed_dir).isPrefixOf (resolvePath cwd file_path)

/-! ## Configuration loading (`load_config`) -/

/-- Python `value.strip('"\x27')`: remove every leading and trailing
double- or single-quote character. -/
def stripQuotes (s : String) : String :=
  let qs : List Char := ['"', Char.ofNat 39]
  String.mk (((s.toList.dropWhile (qs.contains ·)).reverse.dropWhile (qs.contains ·)).reverse)

/-- `[d.strip() for d in value.split(',') if d.strip()]`. -/
def splitClean (value : String) : List String :=
  ((value.toList.splitOn ',').map fun cs => pyStrip (String.mk cs)).filter (· ≠ "")

/-- Digit run accepted by Python `int()` after the optional sign:
decimal digits with single underscores strictly between digits. -/
def pyDigits (cs : List Char) : Option Nat :=
  if cs.isEmpty then none
  else if cs.head? = some '_' || cs.getLast? = some '_' then none
  else if (cs.zip cs.tail).any (fun ab => ab.1 = '_' && ab.2 = '_') then none
  else if cs.all (fun c => c.isDigit || c = '_') then
    some ((cs.filter (· ≠ '_')).foldl (fun n c => n * 10 + (c.toNat - 48)) 0)
  else none

/-- Python `int(s)` for base 10: strip whitespace, optional sign, digits
(with underscores); `none` models the `ValueError`. -/
def pyInt (s : String) : Option Int :=
  match (pyStrip s).toList with
  | '+' :: rest => (pyDigits rest).map Int.ofNat
  | '-' :: rest => (pyDigits rest).map fun n => -(n : Int)
  | cs => (pyDigits cs).map Int.ofNat

/-- The built-in defaults of `load_config`. -/
def defaultConfig : Config :=
  { allowed_directories := []
    max_file_size := 10 * 1024 * 1024
    allowed_extensions := [".txt", ".md", ".py", ".js", ".json", ".yaml", ".yml", ".csv", ".xml", ".html", ".css"] }

/-- One line of the `.env` file, as `load_config` consumes it: strip,
skip blank and `#` lines, split on the first `=`, strip key and value,
strip surrounding quotes from the value, and apply a recognized key.
`int()` failure on `MAX_FILE_SIZE` is the propagated `ValueError`. -/
def processLine (config : Config) (line : String) : Except String Config :=
  let l := pyStrip line
  if l ≠ "" && !(l.toList.head? == some '#') then
    if l.toList.contains '=' then
      let k := l.toList.takeWhile (· ≠ '=')
      let key := pyStrip (String.mk k)
      let value := stripQuotes (pyStrip (String.mk ((l.toList.dropWhile (· ≠ '=')).drop 1)))
      if key = "ALLOWED_DIRECTORIES" then
        Except.ok { config with allowed_directories := splitClean value }
      else if key = "MAX_FILE_SIZE" then
        match pyInt value with
        | some n => Except.ok { config with max_file_size := n }
        | none => Except.error ("invalid literal for int() with base 10: " ++ value)
      else if key = "ALLOWED_EXTENSIONS" then
        Except.ok { config with allowed_extensions := splitClean value }
      else Except.ok config
    else Except.ok config
  else Except.ok config

/-- Python truthiness of an `os.getenv` result: present and non-empty. -/
def envTruthy (o : Option String) : Bool :=
  match o with
  | some v => v ≠ ""
  | none => false

/-- `if os.getenv('ALLOWED_DIRECTORIES'): config['allowed_directories'] = ...`. -/
def envOverrideDirs (getenv : String → Option String) (c : Config) : Config :=
  if envTruthy (getenv "ALLOWED_DIRECTORIES")
  then { c with allowed_directories := splitClean ((getenv "ALLOWED_DIRECTORIES").getD "") }
  else c

/-- `if os.getenv('MAX_FILE_SIZE'): config['max_file_size'] = int(...)`. -/
def envOverrideMax (getenv : String → Option String) (c : Config) : Except String Config :=
  if envTruthy (getenv "MAX_FILE_SIZE")
  then match pyInt ((getenv "MAX_FILE_SIZE").getD "") with
    | some n => Except.ok { c with max_file_size := n }
    | none => Except.error ("invalid literal for int() with base 10: " ++ (getenv "MAX_FILE_SIZE").getD "")
  else Except.ok c

/-- `if os.getenv('ALLOWED_EXTENSIONS'): config['allowed_extensions'] = ...`. -/
def envOverrideExts (getenv : String → Option String) (c : Config) : Config :=
  if envTruthy (getenv "ALLOWED_EXTENSIONS")
  then { c with allowed_extensions := splitClean ((getenv "ALLOWED_EXTENSIONS").getD "") }
  else c

/-- Embeds `load_config()`.  `envFile` is the line list of the `.env`
file when it exists; `getenv` is `os.getenv`.  Defaults, then the file's
recognized lines in order, then the environment variables — each of the
latter only when its value is truthy (non-empty). -/
def load_config (envFile : Option (List String)) (getenv : String → Option String) :
    Except String Config := do
  let base ← match envFile with
    | none => pure defaultConfig
    | some lines => lines.foldlM processLine defaultConfig
  let c2 ← envOverrideMax getenv (envOverrideDirs getenv base)
  pure (envOverrideExts getenv c2)

/-! ## Base64 (Python `base64.b64encode` / standard decoding) -/

def b64Alphabet : List Char :=
  "ABCDEFGHIJKLMNOPQRSTUVWXYZabcdefghijklmnopqrstuvwxyz0123456789+/".toList

def b64chr (n : Nat) : Char := b64Alphabet.getD n 'A'

def b64ord (c : Char) : Option Nat := b64Alphabet.findIdx? (· = c)

/-- Standard base64 encoding of a byte list, chunked in threes with `=`
padding, as `base64.b64encode` produces. -/
def b64chunks : List Nat → List Char
  | [] => []
  | [a] => [b64chr (a / 4), b64chr (a % 4 * 16), '=', '=']
  | [a, b] => [b64chr (a / 4), b64chr (a % 4 * 16 + b / 16), b64chr (b % 16 * 4), '=']
  | a :: b :: c :: rest =>
    b64chr (a / 4) :: b64chr (a % 4 * 16 + b / 16) :: b64chr (b % 16 * 4 + c / 64) ::
      b64chr (c % 64) :: b64chunks rest

def b64encode (bs : List Nat) : String := String.mk (b64chunks bs)

/-- Strict base64 decoding: four-character groups, `=` padding only in a
final group, padding bits required to be zero. -/
def b64dchunks : List Char → Option (List Nat)
  | [] => some []
  | c1 :: c2 :: c3 :: c4 :: rest =>
    if c3 = '=' && c4 = '=' then
      if rest.isEmpty then
        match b64ord c1, b64ord c2 with
        | some v1, some v2 => if v2 % 16 = 0 then some [v1 * 4 + v2 / 16] else none
        | _, _ => none
      else none
    else if c4 = '=' then
      if rest.isEmpty then
        match b64ord c1, b64ord c2, b64ord c3 with
        | some v1, some v2, some v3 =>
          if v3 % 4 = 0 then some [v1 * 4 + v2 / 16, v2 % 16 * 16 + v3 / 4] else none
        | _, _, _ => none
      else none
    else
      match b64ord c1, b64ord c2, b64ord c3, b64ord c4, b64dchunks rest with
      | some v1, some v2, some v3, some v4, some bs =>
        some ((v1 * 4 + v2 / 16) :: (v2 % 16 * 16 + v3 / 4) :: (v3 % 4 * 64 + v4) :: bs)
      | _, _, _, _, _ => none
  | _ => none

def b64decode (s : String) : Option (List Nat) := b64dchunks s.toList

/-! ## Strict UTF-8 decoding (Python `str` decoding with `errors="strict"`) -/

/-- Strict UTF-8 decoding of a byte list to characters: rejects
continuation-byte starts, overlong forms, surrogates and values above
`0x10FFFF`, exactly as Python's default `utf-8` codec does. -/
def utf8DecodeList : List Nat → Option (List Char)
  | [] => some []
  | b :: rest =>
    if b < 128 then (utf8DecodeList rest).map fun cs => Char.ofNat b :: cs
    else if b < 194 then none
    else if b ≤ 223 then
      match rest with
      | c1 :: rest2 =>
        if 128 ≤ c1 && c1 ≤ 191 then
          (utf8DecodeList rest2).map fun cs => Char.ofNat ((b - 192) * 64 + (c1 - 128)) :: cs
        else none
      | [] => none
    else if b ≤ 239 then
      match rest with
      | c1 :: c2 :: rest2 =>
        let lo := if b = 224 then 160 else 128
        let hi := if b = 237 then 159 else 191
        if lo ≤ c1 && c1 ≤ hi && 128 ≤ c2 && c2 ≤ 191 then
          (utf8DecodeList rest2).map fun cs =>
            Char.ofNat ((b - 224) * 4096 + (c1 - 128) * 64 + (c2 - 128)) :: cs
        else none
      | _ => none
    else if b ≤ 244 then
      match rest with
      | c1 :: c2 :: c3 :: rest2 =>
        let lo := if b = 240 then 144 else 128
        let hi := if b = 244 then 143 else 191
        if lo ≤ c1 && c1 ≤ hi && 128 ≤ c2 && c2 ≤ 191 && 128 ≤ c3 && c3 ≤ 191 then
          (utf8DecodeList rest2).map fun cs =>
            Char.ofNat ((b - 240) * 262144 + (c1 - 128) * 4096 + (c2 - 128) * 64 + (c3 - 128)) :: cs
        else none
      | _ => none
    else none

def utf8Decode (bs : List Nat) : Option String := (utf8DecodeList bs).map String.mk

/-- Universal-newline translation performed by Python text mode with the
default `newline=None`: `"\r\n"` and a lone `"\r"` are both turned into
`"\n"` in the returned content. -/
def univNewlines : List Char → List Char
  | [] => []
  | [c] => if c = '\r' then ['\n'] else [c]
  | c :: d :: rest =>
    if c = '\r' then
      if d = '\n' then '\n' :: univNewlines rest
      else '\n' :: univNewlines (d :: rest)
    else c :: univNewlines (d :: rest)

/-- `open(path, 'r', encoding='utf-8')` followed by `f.read()`: strict
UTF-8 decoding of the file's bytes, then the universal-newline
translation of text mode; `none` models the `UnicodeDecodeError`. -/
def pyTextRead (bs : List Nat) : Option String :=
  (utf8DecodeList bs).map fun cs => String.mk (univNewlines cs)

/-! ## The tools (`lf_list_files`, `lf_read_file`) -/

/-- The FastMCP result structures are modelled as inductive results:
either the dictionary with an `"error"` key, or the success shape. -/
structure FileEntry where
  name : String
  path : String
  relative_path : String
  size : Nat
  modified : Int
  extension : String
deriving Repr, DecidableEq

inductive DirListing
  | failed (directory : String) (error : String)
  | listed (directory : String) (files : List FileEntry) (total_files : Nat)
deriving Repr, DecidableEq

inductive ListResult
  | failed (error : String)
  | ok (allowed_directories : List String) (directories : List DirListing)
       (total_directories : Nat)
deriving Repr, DecidableEq

inductive ReadResult
  | failed (error : String)
  | ok (file_path : String) (name : String) (size : Nat) (modified : Int)
       (extension : String) (content_type : String) (content : String)
deriving Repr, DecidableEq

def noConfigError : String :=
  "No allowed directories configured. Please set ALLOWED_DIRECTORIES in .env file."

/-- `path.rglob('*')` restricted to regular-file entries (directories
yielded by `rglob` fail the `is_file()` test in the loop and contribute
nothing, so they are not enumerated): every stored file whose canonical
path strictly extends the scanned directory's canonical path, given as
the segment list relative to that directory, in filesystem order. -/
def rglobFiles (fs : FS) (k : List String) : List (List String) :=
  fs.files.filterMap fun kv =>
    if k.isPrefixOf kv.1 ∧ kv.1 ≠ k then some (kv.1.drop k.length) else none

/-- The metadata dictionary built for one file in the `lf_list_files`
loop; `none` models the `except OSError: continue` around the `stat`. -/
def mkEntry (fs : FS) (dirParsed : PyPath) (rel : List String) : Option FileEntry :=
  let fp : PyPath := ⟨dirParsed.absolute, dirParsed.parts ++ rel⟩
  match fs.statOf (resolveParsed fs.cwd fp) with
  | none => none
  | some st => some
      { name := pathName fp
        path := renderPath fp
        relative_path := renderPath ⟨false, rel⟩
        size := st.1
        modified := st.2
        extension := pathSuffix fp }

/-- The body of the `for dir_path in directories_to_scan` loop of
`lf_list_files` for one directory.  The surrounding `except Exception`
cannot fire in the deterministic model (every operation is total). -/
def scanDir (config : Config) (fs : FS) (dir_path : String) : DirListing :=
  let p := parsePath dir_path
  let k := resolveParsed fs.cwd p
  if ¬ fs.pyExists k then .failed dir_path "Directory does not exist"
  else if ¬ fs.isDir k then .failed dir_path "Path is not a directory"
  else
    let dir_files := (rglobFiles fs k).filterMap fun rel =>
      let fp : PyPath := ⟨p.absolute, p.parts ++ rel⟩
      if fs.isFile (resolveParsed fs.cwd fp) && is_file_allowed fs fp config then
        mkEntry fs p rel
      else none
    .listed dir_path dir_files dir_files.length

/-- Embeds the `lf_list_files` tool (configuration already loaded). -/
def lf_list_files (config : Config) (fs : FS) (directory_path : String := "") : ListResult :=
  if config.allowed_directories = [] then .failed noConfigError
  else if directory_path ≠ "" && !(is_path_allowed fs.cwd directory_path config) then
    .failed ("Directory '" ++ directory_path ++ "' is not in allowed directories.")
  else
    let directories_to_scan :=
      if directory_path ≠ "" then [directory_path] else config.allowed_directories
    let files_info := directories_to_scan.map (scanDir config fs)
    .ok config.allowed_directories files_info files_info.length

/-- Embeds the `lf_read_file` tool (configuration already loaded).  The
text branch is `open(path, 'r', encoding='utf-8').read()` — strict UTF-8
decoding plus the universal-newline translation of text mode
(`pyTextRead`).  The final fallback arm models the outer
`except Exception`; it is unreachable once `is_file` has succeeded,
since the model is deterministic. -/
def lf_read_file (config : Config) (fs : FS) (file_path : String) : ReadResult :=
  if config.allowed_directories = [] then .failed noConfigError
  else if ¬ is_path_allowed fs.cwd file_path config then
    .failed ("File '" ++ file_path ++ "' is not in allowed directories.")
  else
    let p := parsePath file_path
    let k := resolveParsed fs.cwd p
    if ¬ fs.pyExists k then .failed "File does not exist."
    else if ¬ fs.isFile k then .failed "Path is not a file."
    else if ¬ is_file_allowed fs p config then
      .failed "File is not allowed (size or extension restrictions)."
    else
      match fs.lookupFile k, fs.statOf k with
      | some fd, some st =>
        match pyTextRead fd.bytes with
        | some s => .ok (renderPath p) (pathName p) st.1 st.2 (pathSuffix p) "text" s
        | none => .ok (renderPath p) (pathName p) st.1 st.2 (pathSuffix p)
            "binary_base64" (b64encode fd.bytes)
      | _, _ => .failed "Error reading file: stat failed"

/-! ## Further definitions used by the lemmas and witnesses -/

/-- A segment that survives rendering and re-parsing: nonempty, not `"."`,
and free of the separator (a parsed segment is always of this shape). -/
def cleanSeg (s : String) : Bool :=
  s ≠ "" && s ≠ "." && !(s.toList.contains '/')

/-- A canonical segment: clean and not `".."` (the shape of every segment
of a canonical absolute path, hence of every filesystem key). -/
def canonSeg (s : String) : Bool :=
  cleanSeg s && s ≠ ".."


/-- Well-formedness of the modelled filesystem: every file key is a
nonempty canonical segment list and every stored byte is below 256. -/
def FS.WF (fs : FS) : Bool :=
  fs.files.all fun kv =>
    !kv.1.isEmpty && kv.1.all canonSeg && kv.2.bytes.all (· < 256)

/-- The `directories` list of a listing result (empty for the error
dictionary). -/
def ListResult.directories : ListResult → List DirListing
  | .failed _ => []
  | .ok _ ds _ => ds

/-- Whether a read result is the success dictionary. -/
def ReadResult.isOk : ReadResult → Bool
  | .failed _ => false
  | .ok .. => true

/-! ## Sample objects used by the concrete witnesses -/

def fsA : FS :=
  { cwd := ["home"]
    files := [(["data", "a.txt"], ⟨[104, 105], 7, true⟩),
              (["data", "sub", "big.bin"], ⟨[255, 0], 3, true⟩),
              (["data", "ghost.txt"], ⟨[1], 5, false⟩)]
    dirs := [["data"], ["data", "sub"], ["home"]] }

def cfgA : Config := ⟨["/data"], 100, [".txt"]⟩

/-- A filesystem holding `/data/c.txt` whose valid UTF-8 bytes
`"a\r\nb"` contain a Windows line ending. -/
def fsC : FS :=
  { cwd := ["home"]
    files := [(["data", "c.txt"], ⟨[97, 13, 10, 98], 9, true⟩)]
    dirs := [["data"]] }

def cfgB : Config := ⟨["/data", "/nope"], 100, [".txt"]⟩

/-- A configuration naming an allowed directory by a relative string. -/
def cfgRel : Config := ⟨["data"], 100, [".txt"]⟩

/-- A filesystem whose working directory is `/home`, holding
`/home/data/a.txt`. -/
def fsR : FS :=
  { cwd := ["home"]
    files := [(["home", "data", "a.txt"], ⟨[104, 105], 7, true⟩)]
    dirs := [["home", "data"]] }

/-- Modelled from the spec's words: the built-in defaults — empty
allowed-directory list, `maxFileSize = 10,485,760` bytes, and the eleven
listed extensions. -/
def specDefaults : Config :=
  ⟨[], 10485760,
    [".txt", ".md", ".py", ".js", ".json", ".yaml", ".yml", ".csv", ".xml", ".html", ".css"]⟩

/-- Modelled from the spec's words: the `KEY=value` pair a settings-file
line contributes — blank lines and lines starting with `#` are ignored, a
line without `=` is ignored, the key is trimmed, and the value is trimmed
and stripped of surrounding quotes. -/
def parsedLine (line : String) : Option (String × String) :=
  let l := pyStrip line
  if l = "" then none
  else if l.toList.head? == some '#' then none
  else if l.toList.contains '=' then
    some (pyStrip (String.mk (l.toList.takeWhile (· ≠ '='))),
          stripQuotes (pyStrip (String.mk ((l.toList.dropWhile (· ≠ '=')).drop 1))))
  else none

/-- Modelled from the spec's words: applying one recognized `KEY=value`
pair to a configuration — `ALLOWED_DIRECTORIES` comma-separated with each
entry trimmed and empty entries dropped, `MAX_FILE_SIZE` an integer whose
parse failure is a configuration error, `ALLOWED_EXTENSIONS`
comma-separated with each entry trimmed; other keys are ignored. -/
def applyPair (c : Config) (kv : String × String) : Except String Config :=
  if kv.1 = "ALLOWED_DIRECTORIES" then
    Except.ok { c with allowed_directories := splitClean kv.2 }
  else if kv.1 = "MAX_FILE_SIZE" then
    match pyInt kv.2 with
    | some n => Except.ok { c with max_file_size := n }
    | none => Except.error ("invalid literal for int() with base 10: " ++ kv.2)
  else if kv.1 = "ALLOWED_EXTENSIONS" then
    Except.ok { c with allowed_extensions := splitClean kv.2 }
  else Except.ok c

/-- Modelled from the spec's words: defaults, overridden by the settings
file's recognized key/value pairs in order, and finally by the process
environment variables of the same three key names. -/
def specLoadConfig (envFile : Option (List String)) (getenv : String → Option String) :
    Except String Config :=
  (((envFile.getD []).filterMap parsedLine).foldlM applyPair specDefaults).bind fun c =>
    (envOverrideMax getenv (envOverrideDirs getenv c)).map (envOverrideExts getenv)

/-! ## Lemmas about path parsing, rendering and resolution -/

theorem toList_mk (cs : List Char) : (String.mk cs).toList = cs := rfl

theorem mk_toList (s : String) : String.mk s.toList = s := rfl

/-- A chunk produced by `splitOn x` never contains the separator. -/
theorem not_mem_of_mem_splitOnP {α : Type} [DecidableEq α] (p : α → Bool) (xs : List α) :
    ∀ l ∈ xs.splitOnP p, ∀ a ∈ l, ¬ p a = true := by
  induction xs with
  | nil =>
    intro l hl a ha
    simp only [List.splitOnP_nil, List.mem_singleton] at hl
    subst hl
    simp at ha
  | cons x xs ih =>
    intro l hl a ha
    rw [List.splitOnP_cons] at hl
    by_cases hx : p x
    · rw [if_pos hx] at hl
      rcases List.mem_cons.mp hl with h | h
      · subst h; simp at ha
      · exact ih l h a ha
    · rw [if_neg hx] at hl
      rcases hsp : xs.splitOnP p with _ | ⟨hd, tl⟩
      · exact absurd hsp (List.splitOnP_ne_nil p xs)
      · rw [hsp] at hl
        simp only [List.modifyHead] at hl
        rcases List.mem_cons.mp hl with h | h
        · subst h
          rcases List.mem_cons.mp ha with h | h
          · subst h; exact hx
          · exact ih hd (hsp ▸ List.mem_cons_self hd tl) a h
        · exact ih l (hsp ▸ List.mem_cons_of_mem hd h) a ha

theorem not_mem_of_mem_splitOn {α : Type} [DecidableEq α] (x : α) (xs : List α) :
    ∀ l ∈ xs.splitOn x, x ∉ l := by
  intro l hl hx
  have := not_mem_of_mem_splitOnP (· == x) xs l hl x hx
  simp at this

/-- Every segment produced by `parsePath` is clean. -/
theorem parsePath_parts_clean (s : String) : ∀ t ∈ (parsePath s).parts, cleanSeg t = true := by
  intro t ht
  simp only [parsePath, List.mem_filterMap] at ht
  obtain ⟨cs, hcs, heq⟩ := ht
  by_cases h : String.mk cs = "" ∨ String.mk cs = "."
  · simp [h] at heq
  · simp only [if_neg h] at heq
    push_neg at h
    obtain ⟨h1, h2⟩ := h
    cases heq
    simp only [cleanSeg, Bool.and_eq_true, decide_eq_true_eq, Bool.not_eq_true,
      ne_eq]
    refine ⟨⟨h1, h2⟩, ?_⟩
    have hns : '/' ∉ cs := not_mem_of_mem_splitOn '/' s.toList cs hcs
    simp only [toList_mk]
    simpa using hns

theorem intercalate_sep_cons_cons (x y : List Char) (ys : List (List Char)) :
    List.intercalate ['/'] (x :: y :: ys) =
      x ++ '/' :: List.intercalate ['/'] (y :: ys) := by
  simp [List.intercalate, List.intersperse_cons_cons]

theorem intercalate_sep_head (x : List Char) (xs : List (List Char)) (hx : x ≠ []) :
    (List.intercalate ['/'] (x :: xs)).head? = x.head? := by
  cases xs with
  | nil =>
    simp [List.intercalate]
  | cons y ys =>
    rw [intercalate_sep_cons_cons]
    rcases x with _ | ⟨c, cs⟩
    · exact absurd rfl hx
    · simp

/-- The segment filter of `parsePath` maps the rendered segments back to
themselves when none of them is empty or `"."`. -/
theorem filterMap_parseSeg (ts : List String) (h : ∀ t ∈ ts, t ≠ "" ∧ t ≠ ".") :
    ((ts.map String.toList).filterMap fun cs =>
      let t := String.mk cs
      if t = "" ∨ t = "." then none else some t) = ts := by
  induction ts with
  | nil => simp
  | cons a as ih =>
    simp only [List.map_cons, List.filterMap_cons, mk_toList]
    rw [if_neg (not_or.mpr ⟨(h a (by simp)).1, (h a (by simp)).2⟩)]
    rw [ih fun t ht => h t (List.mem_cons_of_mem a ht)]

/-- Rendering a path whose segments are clean and re-parsing it gives the
path back (the printable form of a parsed path is faithful). -/
theorem parsePath_renderPath (p : PyPath) (h : ∀ t ∈ p.parts, cleanSeg t = true) :
    parsePath (renderPath p) = p := by
  obtain ⟨abs, parts⟩ := p
  have hmem : ∀ l ∈ parts.map String.toList, '/' ∉ l := by
    intro l hl
    obtain ⟨t, ht, rfl⟩ := List.mem_map.mp hl
    have := h t ht
    simp only [cleanSeg, Bool.and_eq_true, Bool.not_eq_true, decide_eq_true_eq] at this
    simpa using this.2
  have hne : ∀ t ∈ parts, t ≠ "" ∧ t ≠ "." := by
    intro t ht
    have := h t ht
    simp only [cleanSeg, Bool.and_eq_true, decide_eq_true_eq] at this
    exact ⟨this.1.1, this.1.2⟩
  cases abs with
  | true =>
    cases parts with
    | nil => decide
    | cons hd tl =>
      have hsplit : (List.intercalate ['/'] ((hd :: tl).map String.toList)).splitOn '/' =
          (hd :: tl).map String.toList :=
        List.splitOn_intercalate ((hd :: tl).map String.toList) '/' hmem (by simp)
      have hrender : renderPath ⟨true, hd :: tl⟩ =
          String.mk ('/' :: List.intercalate ['/'] ((hd :: tl).map String.toList)) := by
        simp [renderPath]
      rw [hrender]
      simp only [parsePath, toList_mk, PyPath.mk.injEq]
      refine ⟨by simp, ?_⟩
      rw [List.splitOn, List.splitOnP_cons, if_pos (by simp), ← List.splitOn, hsplit]
      rw [List.filterMap_cons_none rfl]
      exact filterMap_parseSeg (hd :: tl) hne
  | false =>
    cases parts with
    | nil => decide
    | cons hd tl =>
      have hsplit : (List.intercalate ['/'] ((hd :: tl).map String.toList)).splitOn '/' =
          (hd :: tl).map String.toList :=
        List.splitOn_intercalate ((hd :: tl).map String.toList) '/' hmem (by simp)
      have hhd : hd.toList ≠ [] := by
        intro hnil
        exact (hne hd (by simp)).1 (by
          have h2 : String.mk hd.toList = String.mk [] := by rw [hnil]
          simpa [mk_toList] using h2)
      have hhd2 : '/' ∉ hd.toList := hmem hd.toList (by simp)
      have hrender : renderPath ⟨false, hd :: tl⟩ =
          String.mk (List.intercalate ['/'] ((hd :: tl).map String.toList)) := by
        simp [renderPath]
      rw [hrender]
      have hhead : (List.intercalate ['/'] ((hd :: tl).map String.toList)).head? =
          hd.toList.head? := intercalate_sep_head hd.toList (tl.map String.toList) hhd
      simp only [parsePath, toList_mk, PyPath.mk.injEq]
      constructor
      · rcases hl : hd.toList with _ | ⟨c, cs⟩
        · exact absurd hl hhd
        · have hc : c ≠ '/' := by
            intro hc
            exact hhd2 (by rw [hl, hc]; exact List.mem_cons_self _ _)
          rw [hhead, hl]
          simpa using hc
      · rw [hsplit]
        exact filterMap_parseSeg (hd :: tl) hne

/-! ## Resolution lemmas and filesystem well-formedness -/

/-- Folding the resolver over canonical segments just appends them. -/
theorem foldl_resolveStep_canon (ys : List String) (st : List String)
    (h : ∀ s ∈ ys, s ≠ "." ∧ s ≠ "..") :
    ys.foldl resolveStep st = st ++ ys := by
  induction ys generalizing st with
  | nil => simp
  | cons a as ih =>
    have ha := h a (by simp)
    simp only [List.foldl_cons]
    rw [show resolveStep st a = st ++ [a] by
      unfold resolveStep; rw [if_neg ha.1, if_neg ha.2]]
    rw [ih (st ++ [a]) fun s hs => h s (List.mem_cons_of_mem a hs)]
    simp

/-- Resolving a path extended with canonical segments appends them to the
resolved base path. -/
theorem resolveParsed_append (cwd : List String) (ab : Bool) (xs ys : List String)
    (h : ∀ s ∈ ys, s ≠ "." ∧ s ≠ "..") :
    resolveParsed cwd ⟨ab, xs ++ ys⟩ = resolveParsed cwd ⟨ab, xs⟩ ++ ys := by
  simp only [resolveParsed, List.foldl_append]
  exact foldl_resolveStep_canon ys _ h

theorem canonSeg_clean {s : String} (h : canonSeg s = true) : cleanSeg s = true := by
  simp only [canonSeg, Bool.and_eq_true] at h
  exact h.1

theorem canonSeg_not_dots {s : String} (h : canonSeg s = true) : s ≠ "." ∧ s ≠ ".." := by
  simp only [canonSeg, cleanSeg, Bool.and_eq_true, decide_eq_true_eq] at h
  obtain ⟨⟨⟨h1, h2⟩, h3⟩, h4⟩ := h
  exact ⟨h2, h4⟩

theorem WF_key_canon {fs : FS} (hwf : fs.WF = true) {kv : List String × FileData}
    (hkv : kv ∈ fs.files) : kv.1 ≠ [] ∧ (∀ s ∈ kv.1, canonSeg s = true) ∧
      ∀ b ∈ kv.2.bytes, b < 256 := by
  have h1 := (List.all_eq_true.mp hwf) kv hkv
  simp only [Bool.and_eq_true, List.all_eq_true] at h1
  obtain ⟨⟨hne, hcanon⟩, hbytes⟩ := h1
  refine ⟨?_, hcanon, fun b hb => by simpa using hbytes b hb⟩
  intro hnil
  rw [hnil] at hne
  simp at hne

/-- A successful `stat` exhibits the file record behind it. -/
theorem statOf_mem {fs : FS} {k : List String} {st : Nat × Int}
    (h : fs.statOf k = some st) :
    ∃ fd : FileData, (k, fd) ∈ fs.files ∧ fd.statable = true ∧
      st = (fd.bytes.length, fd.mtime) := by
  simp only [FS.statOf, FS.lookupFile, Option.bind_eq_some, Option.map_eq_some'] at h
  obtain ⟨fd, ⟨kv, hfind, hsnd⟩, hif⟩ := h
  have hmem := List.mem_of_find?_eq_some hfind
  have hkey : kv.1 = k := by simpa using List.find?_some hfind
  by_cases hs : fd.statable
  · rw [if_pos hs] at hif
    refine ⟨fd, ?_, hs, (Option.some_inj.mp hif).symm⟩
    have : kv = (k, fd) := by
      cases kv; simp_all
    exact this ▸ hmem
  · rw [if_neg hs] at hif
    exact absurd hif (by simp)

/-- Unpacking membership in the modelled `rglob` enumeration. -/
theorem mem_rglobFiles {fs : FS} {k rel : List String}
    (h : rel ∈ rglobFiles fs k) :
    ∃ kv ∈ fs.files, k <+: kv.1 ∧ kv.1 ≠ k ∧ rel = kv.1.drop k.length ∧
      kv.1 = k ++ rel := by
  simp only [rglobFiles, List.mem_filterMap] at h
  obtain ⟨kv, hkv, hif⟩ := h
  by_cases hc : k.isPrefixOf kv.1 ∧ kv.1 ≠ k
  · rw [if_pos hc] at hif
    have hpre : k <+: kv.1 := List.isPrefixOf_iff_prefix.mp hc.1
    have happ : k ++ kv.1.drop k.length = kv.1 := List.prefix_iff_eq_append.mp hpre
    obtain ⟨rfl⟩ := Option.some_inj.mp hif
    exact ⟨kv, hkv, hpre, hc.2, rfl, happ.symm⟩
  · rw [if_neg hc] at hif
    exact absurd hif (by simp)

/-- Characterization of every entry produced by one directory scan: it
corresponds to a stored file strictly below the scanned directory, its
rendered paths are faithful, it passed `is_file_allowed`, and its metadata
comes from the file's record. -/
theorem mem_scanDir_entry {config : Config} {fs : FS} {dir_path d : String}
    {fl : List FileEntry} {n : Nat} {e : FileEntry}
    (hwf : fs.WF = true)
    (hs : scanDir config fs dir_path = DirListing.listed d fl n)
    (he : e ∈ fl) :
    d = dir_path ∧
    ∃ rel : List String, rel ≠ [] ∧ (∀ s ∈ rel, canonSeg s = true) ∧
      e.path = renderPath ⟨(parsePath dir_path).absolute, (parsePath dir_path).parts ++ rel⟩ ∧
      e.relative_path = renderPath ⟨false, rel⟩ ∧
      parsePath e.path = ⟨(parsePath dir_path).absolute, (parsePath dir_path).parts ++ rel⟩ ∧
      resolvePath fs.cwd e.path = resolveParsed fs.cwd (parsePath dir_path) ++ rel ∧
      is_file_allowed fs (parsePath e.path) config = true ∧
      (∃ fd : FileData, (resolveParsed fs.cwd (parsePath dir_path) ++ rel, fd) ∈ fs.files ∧
        fd.statable = true ∧ e.size = fd.bytes.length ∧ e.modified = fd.mtime) ∧
      e.name = pathName ⟨(parsePath dir_path).absolute, (parsePath dir_path).parts ++ rel⟩ ∧
      e.extension = pathSuffix ⟨(parsePath dir_path).absolute, (parsePath dir_path).parts ++ rel⟩ := by
  simp only [scanDir] at hs
  split at hs
  · exact absurd hs (by simp)
  split at hs
  · exact absurd hs (by simp)
  simp only [DirListing.listed.injEq] at hs
  obtain ⟨rfl, rfl, rfl⟩ := hs
  obtain ⟨rel, hrel, hg⟩ := List.mem_filterMap.mp he
  by_cases hcond : (fs.isFile (resolveParsed fs.cwd
        ⟨(parsePath dir_path).absolute, (parsePath dir_path).parts ++ rel⟩) &&
      is_file_allowed fs
        ⟨(parsePath dir_path).absolute, (parsePath dir_path).parts ++ rel⟩ config) = true
  case neg =>
    rw [if_neg hcond] at hg
    exact absurd hg (by simp)
  rw [if_pos hcond] at hg
  obtain ⟨kv, hkv, hpre, hne, hdrop, happ⟩ := mem_rglobFiles hrel
  obtain ⟨hknil, hkcanon, hkbytes⟩ := WF_key_canon hwf hkv
  have hrelcanon : ∀ s ∈ rel, canonSeg s = true := by
    intro s hsm
    refine hkcanon s ?_
    rw [hdrop] at hsm
    exact (List.drop_sublist _ _).subset hsm
  have hrelne : rel ≠ [] := by
    intro hnil
    rw [hnil, List.append_nil] at happ
    exact hne happ
  -- unpack the constructed entry
  simp only [mkEntry] at hg
  rcases hst : fs.statOf (resolveParsed fs.cwd
      ⟨(parsePath dir_path).absolute, (parsePath dir_path).parts ++ rel⟩) with _ | st
  · rw [hst] at hg
    exact absurd hg (by simp)
  rw [hst] at hg
  have he2 := (Option.some_inj.mp hg).symm
  have hfpclean : ∀ t ∈ (parsePath dir_path).parts ++ rel, cleanSeg t = true := by
    intro t ht
    rcases List.mem_append.mp ht with h | h
    · exact parsePath_parts_clean dir_path t h
    · exact canonSeg_clean (hrelcanon t h)
  have hparse : parsePath (renderPath
      ⟨(parsePath dir_path).absolute, (parsePath dir_path).parts ++ rel⟩) =
      ⟨(parsePath dir_path).absolute, (parsePath dir_path).parts ++ rel⟩ :=
    parsePath_renderPath _ hfpclean
  have hres : resolveParsed fs.cwd
      ⟨(parsePath dir_path).absolute, (parsePath dir_path).parts ++ rel⟩ =
      resolveParsed fs.cwd (parsePath dir_path) ++ rel := by
    have : (parsePath dir_path) = ⟨(parsePath dir_path).absolute, (parsePath dir_path).parts⟩ := rfl
    rw [this]
    exact resolveParsed_append fs.cwd _ _ rel fun s hsm => canonSeg_not_dots (hrelcanon s hsm)
  have hpath : e.path = renderPath
      ⟨(parsePath dir_path).absolute, (parsePath dir_path).parts ++ rel⟩ := by
    rw [he2]
  have hparse2 : parsePath e.path =
      ⟨(parsePath dir_path).absolute, (parsePath dir_path).parts ++ rel⟩ := by
    rw [hpath, hparse]
  refine ⟨rfl, rel, hrelne, hrelcanon, hpath, by rw [he2], hparse2, ?_, ?_, ?_, by rw [he2], by rw [he2]⟩
  · simp only [resolvePath]
    rw [hparse2, hres]
  · rw [hparse2]
    have hc2 := hcond
    simp only [Bool.and_eq_true] at hc2
    exact hc2.2
  · rw [hres] at hst
    obtain ⟨fd, hmem, hstat, hsteq⟩ := statOf_mem hst
    exact ⟨fd, hmem, hstat, by rw [he2, hsteq], by rw [he2, hsteq]⟩

/-! ## C2: containment semantics of `is_path_allowed` -/

/-- C2: `is_path_allowed` returns true iff the canonical form of the
candidate equals or extends (segment-wise) the canonical form of some
allowed directory; it is false for the empty allowed list; it rejects a
path sharing only a string prefix with an allowed root (`/allowed2`
versus `/allowed`), and it rejects a `..` escape whose literal string
starts with the allowed root's string. -/
theorem is_path_allowed_iff_descendant :
    (∀ (cwd : List String) (p : String) (config : Config),
      is_path_allowed cwd p config = true ↔
        ∃ d ∈ config.allowed_directories, resolvePath cwd d <+: resolvePath cwd p) ∧
    (∀ (cwd : List String) (p : String) (config : Config),
      config.allowed_directories = [] → is_path_allowed cwd p config = false) ∧
    (is_path_allowed ["home"] "/allowed2/file.txt" ⟨["/allowed"], 10485760, []⟩ = false ∧
      ("/allowed".toList).isPrefixOf ("/allowed2/file.txt".toList) = true) ∧
    (is_path_allowed ["home"] "/allowed/../secret.txt" ⟨["/allowed"], 10485760, []⟩ = false ∧
      ("/allowed".toList).isPrefixOf ("/allowed/../secret.txt".toList) = true) := by
  refine ⟨?_, ?_, by decide, by decide⟩
  · intro cwd p config
    simp only [is_path_allowed, List.any_eq_true]
    constructor
    · rintro ⟨d, hd, hpre⟩
      exact ⟨d, hd, List.isPrefixOf_iff_prefix.mp hpre⟩
    · rintro ⟨d, hd, hpre⟩
      exact ⟨d, hd, List.isPrefixOf_iff_prefix.mpr hpre⟩
  · intro cwd p config h
    simp [is_path_allowed, h]

theorem is_path_allowed_iff_descendant_witness :
    is_path_allowed ["home"] "/data/notes.txt" ⟨["/data"], 100, []⟩ = true ∧
    is_path_allowed ["home"] "/etc/passwd" ⟨[], 100, []⟩ = false :=
  ⟨(is_path_allowed_iff_descendant.1 ["home"] "/data/notes.txt" ⟨["/data"], 100, []⟩).mpr
      ⟨"/data", by decide, by decide⟩,
    is_path_allowed_iff_descendant.2.1 ["home"] "/etc/passwd" ⟨[], 100, []⟩ rfl⟩

/-! ## C3: extension policy of `is_file_allowed` -/

/-- C3: with a non-empty extension list, `is_file_allowed` is false when
the file's case-folded extension is absent from the list; with an empty
extension list, any extension is accepted as long as the size is within
the limit. -/
theorem is_file_allowed_extension_policy :
    (∀ (fs : FS) (p : PyPath) (config : Config),
      config.allowed_extensions ≠ [] →
      config.allowed_extensions.contains (pyLower (pathSuffix p)) = false →
      is_file_allowed fs p config = false) ∧
    (∀ (fs : FS) (p : PyPath) (config : Config) (st : Nat × Int),
      config.allowed_extensions = [] →
      fs.statOf (resolveParsed fs.cwd p) = some st →
      (st.1 : Int) ≤ config.max_file_size →
      is_file_allowed fs p config = true) := by
  constructor
  · intro fs p config hne hmem
    unfold is_file_allowed
    rcases hst : fs.statOf (resolveParsed fs.cwd p) with _ | st
    · rfl
    · by_cases hgt : (st.1 : Int) > config.max_file_size
      · simp [hgt]
      · have hmem2 : pyLower (pathSuffix p) ∉ config.allowed_extensions := by
          simpa using hmem
        simp [hgt, hne, hmem2]
  · intro fs p config st hext hst hle
    unfold is_file_allowed
    have hgt : ¬ ((st.1 : Int) > config.max_file_size) := by omega
    simp [hst, hgt, hext]

theorem is_file_allowed_extension_policy_witness :
    is_file_allowed fsA (parsePath "/data/sub/big.bin") cfgA = false ∧
    is_file_allowed fsA (parsePath "/data/sub/big.bin") ⟨["/data"], 100, []⟩ = true :=
  ⟨is_file_allowed_extension_policy.1 fsA (parsePath "/data/sub/big.bin") cfgA
      (by decide) (by decide),
    is_file_allowed_extension_policy.2 fsA (parsePath "/data/sub/big.bin")
      ⟨["/data"], 100, []⟩ (2, 3) rfl (by decide) (by decide)⟩

/-! ## C4: `is_file_allowed` fails closed on stat errors and size -/

/-- C4: `is_file_allowed` is false whenever the file's size cannot be
read (`stat` fails), and false whenever the size exceeds
`max_file_size`, in both cases for every extension configuration. -/
theorem is_file_allowed_fails_closed :
    (∀ (fs : FS) (p : PyPath) (config : Config),
      fs.statOf (resolveParsed fs.cwd p) = none →
      is_file_allowed fs p config = false) ∧
    (∀ (fs : FS) (p : PyPath) (config : Config) (st : Nat × Int),
      fs.statOf (resolveParsed fs.cwd p) = some st →
      (st.1 : Int) > config.max_file_size →
      is_file_allowed fs p config = false) := by
  constructor
  · intro fs p config hst
    unfold is_file_allowed
    simp [hst]
  · intro fs p config st hst hgt
    unfold is_file_allowed
    simp [hst, hgt]

theorem is_file_allowed_fails_closed_witness :
    is_file_allowed fsA (parsePath "/data/ghost.txt") cfgA = false ∧
    is_file_allowed fsA (parsePath "/data/a.txt") ⟨["/data"], 1, [".txt"]⟩ = false :=
  ⟨is_file_allowed_fails_closed.1 fsA (parsePath "/data/ghost.txt") cfgA (by decide),
    is_file_allowed_fails_closed.2 fsA (parsePath "/data/a.txt")
      ⟨["/data"], 1, [".txt"]⟩ (2, 7) (by decide) (by decide)⟩

/-! ## C9: the empty `directory_path` is the omitted argument -/

/-- C9: calling `lf_list_files` with the empty string (which is the
declared default of the argument, so omitted means empty) never submits
the empty string to `is_path_allowed` — it is never rejected as a
disallowed path — and the scan set becomes all configured allowed
directories. -/
theorem lf_list_files_empty_dirpath (config : Config) (fs : FS) :
    (config.allowed_directories ≠ [] →
      lf_list_files config fs "" =
        ListResult.ok config.allowed_directories
          (config.allowed_directories.map (scanDir config fs))
          (config.allowed_directories.map (scanDir config fs)).length) ∧
    lf_list_files config fs "" ≠
      ListResult.failed "Directory '' is not in allowed directories." := by
  constructor
  · intro h
    simp [lf_list_files, h]
  · by_cases h : config.allowed_directories = []
    · simp only [lf_list_files, if_pos h]
      intro hbad
      have : noConfigError = "Directory '' is not in allowed directories." :=
        ListResult.failed.inj hbad
      exact absurd this (by decide)
    · simp [lf_list_files, h]

theorem lf_list_files_empty_dirpath_witness :
    lf_list_files cfgA fsA "" =
      ListResult.ok cfgA.allowed_directories
        (cfgA.allowed_directories.map (scanDir cfgA fsA))
        (cfgA.allowed_directories.map (scanDir cfgA fsA)).length :=
  (lf_list_files_empty_dirpath cfgA fsA).1 (by decide)

/-! ## C10: an empty environment variable does not override -/

/-- C10: an environment variable among the three recognized keys that is
set to the empty string behaves exactly as an unset variable — it never
overrides the file-layered or default value; in particular an empty
`ALLOWED_DIRECTORIES` leaves a file-configured directory list in force. -/
theorem load_config_empty_env_no_override :
    (∀ (file : Option (List String)) (env env2 : String → Option String),
      (∀ k, env2 k = if env k = some "" then none else env k) →
      load_config file env = load_config file env2) ∧
    (load_config (some ["ALLOWED_DIRECTORIES=/data"])
        (fun k => if k = "ALLOWED_DIRECTORIES" then some "" else none)).map
        Config.allowed_directories = Except.ok ["/data"] := by
  constructor
  · intro file env env2 h
    have ht : ∀ k, envTruthy (env2 k) = envTruthy (env k) := by
      intro k
      rw [h k]
      rcases he : env k with _ | v
      · simp
      · by_cases hv : v = ""
        · subst hv; simp [envTruthy]
        · rw [if_neg (by simpa using hv)]
    have hg : ∀ k, envTruthy (env k) = true → env2 k = env k := by
      intro k hk
      rw [h k]
      rcases he : env k with _ | v
      · rfl
      · rw [he] at hk
        simp only [envTruthy] at hk
        rw [if_neg (by simpa using hk)]
    have hdirs : ∀ c, envOverrideDirs env2 c = envOverrideDirs env c := by
      intro c
      unfold envOverrideDirs
      rw [ht "ALLOWED_DIRECTORIES"]
      by_cases hb : envTruthy (env "ALLOWED_DIRECTORIES") = true
      · rw [if_pos hb, if_pos hb, hg _ hb]
      · rw [if_neg hb, if_neg hb]
    have hmax : ∀ c, envOverrideMax env2 c = envOverrideMax env c := by
      intro c
      unfold envOverrideMax
      rw [ht "MAX_FILE_SIZE"]
      by_cases hb : envTruthy (env "MAX_FILE_SIZE") = true
      · rw [if_pos hb, if_pos hb, hg _ hb]
      · rw [if_neg hb, if_neg hb]
    have hexts : ∀ c, envOverrideExts env2 c = envOverrideExts env c := by
      intro c
      unfold envOverrideExts
      rw [ht "ALLOWED_EXTENSIONS"]
      by_cases hb : envTruthy (env "ALLOWED_EXTENSIONS") = true
      · rw [if_pos hb, if_pos hb, hg _ hb]
      · rw [if_neg hb, if_neg hb]
    simp only [load_config, hdirs, hmax, hexts]
  · rfl

theorem load_config_empty_env_no_override_witness :
    load_config (some ["MAX_FILE_SIZE=42"])
        (fun _ => some "") =
      load_config (some ["MAX_FILE_SIZE=42"]) (fun _ => none) :=
  load_config_empty_env_no_override.1 (some ["MAX_FILE_SIZE=42"])
    (fun _ => some "") (fun _ => none) (fun k => by simp)

/-! ## C6: one bad directory never aborts the listing -/

/-- C6: with one existing directory and one nonexistent directory in the
scan set, `lf_list_files` returns (never raises) an aggregate holding one
successful per-directory entry with its files and count, one error entry
for the nonexistent directory, the full allowed-directory list, and the
total number of directories processed. -/
theorem lf_list_files_mixed_dirs (config : Config) (fs : FS) (d1 d2 : String)
    (hdirs : config.allowed_directories = [d1, d2])
    (h1e : fs.pyExists (resolvePath fs.cwd d1) = true)
    (h1d : fs.isDir (resolvePath fs.cwd d1) = true)
    (h2e : fs.pyExists (resolvePath fs.cwd d2) = false) :
    ∃ fl : List FileEntry,
      lf_list_files config fs "" =
        ListResult.ok [d1, d2]
          [DirListing.listed d1 fl fl.length,
           DirListing.failed d2 "Directory does not exist"] 2 := by
  have hs1 : ∃ fl : List FileEntry, scanDir config fs d1 = DirListing.listed d1 fl fl.length := by
    simp only [resolvePath] at h1e h1d
    simp [scanDir, h1e, h1d]
  obtain ⟨fl, hs1⟩ := hs1
  have hs2 : scanDir config fs d2 = DirListing.failed d2 "Directory does not exist" := by
    simp only [resolvePath] at h2e
    simp [scanDir, h2e]
  refine ⟨fl, ?_⟩
  simp [lf_list_files, hdirs, hs1, hs2]

theorem lf_list_files_mixed_dirs_witness :
    ∃ fl : List FileEntry,
      lf_list_files cfgB fsA "" =
        ListResult.ok ["/data", "/nope"]
          [DirListing.listed "/data" fl fl.length,
           DirListing.failed "/nope" "Directory does not exist"] 2 :=
  lf_list_files_mixed_dirs cfgB fsA "/data" "/nope" rfl (by decide) (by decide) (by decide)

/-! ## C5: text/binary classification and the base64 round trip -/

theorem b64ord_b64chr : ∀ v : Nat, v < 64 → b64ord (b64chr v) = some v := by decide

theorem b64chr_ne_pad : ∀ v : Nat, v < 64 → b64chr v ≠ '=' := by decide

/-- Decoding inverts encoding on byte lists. -/
theorem b64dchunks_b64chunks : ∀ bs : List Nat, (∀ b ∈ bs, b < 256) →
    b64dchunks (b64chunks bs) = some bs
  | [], _ => by simp [b64chunks, b64dchunks]
  | [a], h => by
    have ha : a < 256 := h a (by simp)
    have h1 : a / 4 < 64 := by omega
    have h2 : a % 4 * 16 < 64 := by omega
    simp only [b64chunks, b64dchunks]
    rw [if_pos (by simp)]
    rw [if_pos (by simp)]
    rw [b64ord_b64chr _ h1, b64ord_b64chr _ h2]
    have e1 : (a % 4 * 16) % 16 = 0 := by omega
    have e2 : a / 4 * 4 + a % 4 * 16 / 16 = a := by omega
    simp [e1, e2]
    omega
  | [a, b], h => by
    have ha : a < 256 := h a (by simp)
    have hb : b < 256 := h b (by simp)
    have h1 : a / 4 < 64 := by omega
    have h2 : a % 4 * 16 + b / 16 < 64 := by omega
    have h3 : b % 16 * 4 < 64 := by omega
    simp only [b64chunks, b64dchunks]
    rw [if_neg (by simp [b64chr_ne_pad _ h3])]
    rw [if_pos (by simp)]
    rw [if_pos (by simp)]
    rw [b64ord_b64chr _ h1, b64ord_b64chr _ h2, b64ord_b64chr _ h3]
    have e1 : (b % 16 * 4) % 4 = 0 := by omega
    have e2 : a / 4 * 4 + (a % 4 * 16 + b / 16) / 16 = a := by omega
    have e3 : (a % 4 * 16 + b / 16) % 16 * 16 + b % 16 * 4 / 4 = b := by omega
    simp [e1, e2, e3]
    omega
  | a :: b :: c :: rest, h => by
    have ha : a < 256 := h a (by simp)
    have hb : b < 256 := h b (by simp)
    have hc : c < 256 := h c (by simp)
    have h1 : a / 4 < 64 := by omega
    have h2 : a % 4 * 16 + b / 16 < 64 := by omega
    have h3 : b % 16 * 4 + c / 64 < 64 := by omega
    have h4 : c % 64 < 64 := by omega
    have ih := b64dchunks_b64chunks rest fun x hx => h x (by simp [hx])
    simp only [b64chunks, b64dchunks]
    rw [if_neg (by simp [b64chr_ne_pad _ h3])]
    rw [if_neg (by simp [b64chr_ne_pad _ h4])]
    rw [b64ord_b64chr _ h1, b64ord_b64chr _ h2, b64ord_b64chr _ h3, b64ord_b64chr _ h4, ih]
    have e2 : a / 4 * 4 + (a % 4 * 16 + b / 16) / 16 = a := by omega
    have e3 : (a % 4 * 16 + b / 16) % 16 * 16 + (b % 16 * 4 + c / 64) / 4 = b := by omega
    have e4 : (b % 16 * 4 + c / 64) % 4 * 64 + c % 64 = c := by omega
    simp [e2, e3, e4]

/-- The round-trip law for the modelled `base64.b64encode`. -/
theorem b64decode_b64encode (bs : List Nat) (h : ∀ b ∈ bs, b < 256) :
    b64decode (b64encode bs) = some bs := by
  simp only [b64decode, b64encode, toList_mk]
  exact b64dchunks_b64chunks bs h

theorem lookupFile_mem {fs : FS} {k : List String} {fd : FileData}
    (h : fs.lookupFile k = some fd) : (k, fd) ∈ fs.files := by
  simp only [FS.lookupFile, Option.map_eq_some'] at h
  obtain ⟨kv, hfind, h2⟩ := h
  have hkey : kv.1 = k := by simpa using List.find?_some hfind
  have hm := List.mem_of_find?_eq_some hfind
  cases kv
  simp_all

/-- `univNewlines` is the identity on text without carriage returns. -/
theorem univNewlines_no_cr : ∀ cs : List Char, '\r' ∉ cs → univNewlines cs = cs
  | [], _ => rfl
  | [c], h => by
    have hc : ¬ (c = '\r') := by
      intro he
      subst he
      simp at h
    simp [univNewlines, hc]
  | c :: d :: rest, h => by
    have hc : ¬ (c = '\r') := by
      intro he
      subst he
      simp at h
    have h2 : '\r' ∉ d :: rest := fun hm => h (List.mem_cons_of_mem c hm)
    rw [univNewlines, if_neg hc, univNewlines_no_cr (d :: rest) h2]

/-- C5 counterexample: `/data/c.txt` holds the valid UTF-8 bytes of
`"a\r\nb"`, but the program reads it in text mode, whose
universal-newline translation turns the Windows line ending into
`"\n"` — the returned content `"a\nb"` is not the original text
exactly. -/
theorem lf_read_file_crlf_counterexample :
    utf8Decode [97, 13, 10, 98] = some "a\r\nb" ∧
    lf_read_file ⟨["/data"], 100, []⟩ fsC "/data/c.txt" =
      ReadResult.ok "/data/c.txt" "c.txt" 4 9 ".txt" "text" "a\nb" ∧
    "a\nb" ≠ "a\r\nb" := by decide

/-- C5 (amended): a read of an allowed, existing, policy-passing regular
file whose bytes are valid UTF-8 returns content kind `"text"` with the
decoded text after universal-newline translation (`"\r\n"` and lone
`"\r"` become `"\n"`) — hence exactly the original text whenever it
contains no carriage return — and on invalid UTF-8 returns kind
`"binary_base64"` with a base64 payload that decodes back to exactly the
original bytes (round-trip law). -/
theorem lf_read_file_content_roundtrip (config : Config) (fs : FS) (file_path : String)
    (fd : FileData) (st : Nat × Int)
    (hwf : fs.WF = true)
    (hcfg : config.allowed_directories ≠ [])
    (hallow : is_path_allowed fs.cwd file_path config = true)
    (hfd : fs.lookupFile (resolvePath fs.cwd file_path) = some fd)
    (hst : fs.statOf (resolvePath fs.cwd file_path) = some st)
    (hpol : is_file_allowed fs (parsePath file_path) config = true) :
    (∀ cs : List Char, utf8DecodeList fd.bytes = some cs →
      lf_read_file config fs file_path =
        ReadResult.ok (renderPath (parsePath file_path)) (pathName (parsePath file_path))
          st.1 st.2 (pathSuffix (parsePath file_path)) "text" (String.mk (univNewlines cs)) ∧
      ('\r' ∉ cs →
        lf_read_file config fs file_path =
          ReadResult.ok (renderPath (parsePath file_path)) (pathName (parsePath file_path))
            st.1 st.2 (pathSuffix (parsePath file_path)) "text" (String.mk cs))) ∧
    (utf8DecodeList fd.bytes = none →
      lf_read_file config fs file_path =
        ReadResult.ok (renderPath (parsePath file_path)) (pathName (parsePath file_path))
          st.1 st.2 (pathSuffix (parsePath file_path)) "binary_base64" (b64encode fd.bytes) ∧
      b64decode (b64encode fd.bytes) = some fd.bytes) := by
  simp only [resolvePath] at hfd hst
  have hisfile : fs.isFile (resolveParsed fs.cwd (parsePath file_path)) = true := by
    simp [FS.isFile, hst]
  have hex : fs.pyExists (resolveParsed fs.cwd (parsePath file_path)) = true := by
    simp [FS.pyExists, hisfile]
  have hbytes : ∀ b ∈ fd.bytes, b < 256 := (WF_key_canon hwf (lookupFile_mem hfd)).2.2
  constructor
  · intro cs hdec
    have hread : pyTextRead fd.bytes = some (String.mk (univNewlines cs)) := by
      simp [pyTextRead, hdec]
    constructor
    · simp [lf_read_file, hcfg, hallow, hex, hisfile, hpol, hfd, hst, hread]
    · intro hcr
      rw [univNewlines_no_cr cs hcr] at hread
      simp [lf_read_file, hcfg, hallow, hex, hisfile, hpol, hfd, hst, hread]
  · intro hdec
    have hread : pyTextRead fd.bytes = none := by
      simp [pyTextRead, hdec]
    refine ⟨?_, b64decode_b64encode fd.bytes hbytes⟩
    simp [lf_read_file, hcfg, hallow, hex, hisfile, hpol, hfd, hst, hread]

theorem lf_read_file_content_roundtrip_witness :
    (lf_read_file ⟨["/data"], 100, []⟩ fsC "/data/c.txt" =
      ReadResult.ok (renderPath (parsePath "/data/c.txt")) (pathName (parsePath "/data/c.txt"))
        4 9 (pathSuffix (parsePath "/data/c.txt")) "text"
        (String.mk (univNewlines ['a', '\r', '\n', 'b']))) ∧
    (lf_read_file ⟨["/data"], 100, []⟩ fsA "/data/a.txt" =
      ReadResult.ok (renderPath (parsePath "/data/a.txt")) (pathName (parsePath "/data/a.txt"))
        2 7 (pathSuffix (parsePath "/data/a.txt")) "text" (String.mk ['h', 'i'])) ∧
    (lf_read_file ⟨["/data"], 100, []⟩ fsA "/data/sub/big.bin" =
      ReadResult.ok (renderPath (parsePath "/data/sub/big.bin"))
        (pathName (parsePath "/data/sub/big.bin"))
        2 3 (pathSuffix (parsePath "/data/sub/big.bin")) "binary_base64" (b64encode [255, 0]) ∧
      b64decode (b64encode [255, 0]) = some [255, 0]) :=
  ⟨((lf_read_file_content_roundtrip ⟨["/data"], 100, []⟩ fsC "/data/c.txt"
      ⟨[97, 13, 10, 98], 9, true⟩ (4, 9) (by decide) (by decide) (by decide) (by decide)
      (by decide) (by decide)).1 ['a', '\r', '\n', 'b'] (by decide)).1,
    ((lf_read_file_content_roundtrip ⟨["/data"], 100, []⟩ fsA "/data/a.txt"
      ⟨[104, 105], 7, true⟩ (2, 7) (by decide) (by decide) (by decide) (by decide)
      (by decide) (by decide)).1 ['h', 'i'] (by decide)).2 (by decide),
    (lf_read_file_content_roundtrip ⟨["/data"], 100, []⟩ fsA "/data/sub/big.bin"
      ⟨[255, 0], 3, true⟩ (2, 3) (by decide) (by decide) (by decide) (by decide)
      (by decide) (by decide)).2 (by decide)⟩

/-! ## C1: every returned entry passed the guards -/

/-- `is_path_allowed` unfolded to its containment meaning. -/
theorem is_path_allowed_eq_true_iff (cwd : List String) (p : String) (config : Config) :
    is_path_allowed cwd p config = true ↔
      ∃ d ∈ config.allowed_directories, resolvePath cwd d <+: resolvePath cwd p := by
  simp only [is_path_allowed, List.any_eq_true]
  constructor
  · rintro ⟨d, hd, hpre⟩
    exact ⟨d, hd, List.isPrefixOf_iff_prefix.mp hpre⟩
  · rintro ⟨d, hd, hpre⟩
    exact ⟨d, hd, List.isPrefixOf_iff_prefix.mpr hpre⟩

/-- A `listed` element of a listing result comes from `scanDir` on a
directory that was either one of the configured allowed directories (when
no argument was given) or the argument itself, which then passed
`is_path_allowed`. -/
theorem mem_directories_scanDir {config : Config} {fs : FS} {dp d : String}
    {fl : List FileEntry} {n : Nat}
    (h : DirListing.listed d fl n ∈ (lf_list_files config fs dp).directories) :
    ∃ dir_path : String, scanDir config fs dir_path = DirListing.listed d fl n ∧
      (dp = "" → dir_path ∈ config.allowed_directories) ∧
      (dp ≠ "" → dir_path = dp ∧ is_path_allowed fs.cwd dp config = true) ∧
      config.allowed_directories ≠ [] := by
  by_cases h1 : config.allowed_directories = []
  · simp [lf_list_files, h1, ListResult.directories] at h
  by_cases hdp : dp = ""
  · subst hdp
    simp only [lf_list_files, if_neg h1] at h
    rw [if_neg (by simp)] at h
    rw [if_neg (by simp : ¬ (("" : String) ≠ ""))] at h
    simp only [ListResult.directories] at h
    obtain ⟨a, ha, hsc⟩ := List.mem_map.mp h
    exact ⟨a, hsc, fun _ => ha, fun hne => absurd rfl hne, h1⟩
  · by_cases h2 : is_path_allowed fs.cwd dp config = true
    · simp only [lf_list_files, if_neg h1] at h
      rw [if_neg (by simp [h2])] at h
      rw [if_pos hdp] at h
      simp only [ListResult.directories, List.map_cons, List.map_nil,
        List.mem_singleton] at h
      exact ⟨dp, h.symm, fun he => absurd he hdp, fun _ => ⟨rfl, h2⟩, h1⟩
    · exfalso
      have h2b : is_path_allowed fs.cwd dp config = false := by simpa using h2
      simp [lf_list_files, h1, hdp, h2b, ListResult.directories] at h

/-- C1: every `FileEntry` in a `lf_list_files` result names a file whose
path passes the `is_path_allowed` containment check against the loaded
configuration and which passed `is_file_allowed` at the moment of the
scan; and every successful `lf_read_file` result was likewise guarded by
both checks. -/
theorem results_respect_path_and_file_policy (config : Config) (fs : FS)
    (hwf : fs.WF = true) :
    (∀ (dp d : String) (fl : List FileEntry) (n : Nat),
      DirListing.listed d fl n ∈ (lf_list_files config fs dp).directories →
      ∀ e ∈ fl,
        is_path_allowed fs.cwd e.path config = true ∧
        is_file_allowed fs (parsePath e.path) config = true) ∧
    (∀ fp : String, (lf_read_file config fs fp).isOk = true →
      is_path_allowed fs.cwd fp config = true ∧
      is_file_allowed fs (parsePath fp) config = true) := by
  constructor
  · intro dp d fl n hmem e he
    obtain ⟨a, hsc, hall, hgiven, hne⟩ := mem_directories_scanDir hmem
    obtain ⟨hd, rel, hrelne, hrelcanon, hpath, hrelpath, hparse, hres, hpol, hfd, hname, hext⟩ :=
      mem_scanDir_entry hwf hsc he
    refine ⟨?_, hpol⟩
    rw [is_path_allowed_eq_true_iff]
    by_cases hdp : dp = ""
    · refine ⟨a, hall hdp, ?_⟩
      rw [hres]
      exact List.prefix_append _ _
    · obtain ⟨haeq, h2⟩ := hgiven hdp
      obtain ⟨b, hb, hpre⟩ := (is_path_allowed_eq_true_iff fs.cwd dp config).mp h2
      refine ⟨b, hb, hpre.trans ?_⟩
      rw [hres, haeq]
      exact List.prefix_append _ _
  · intro fp hok
    by_cases h1 : config.allowed_directories = []
    · exfalso; simp [lf_read_file, h1, ReadResult.isOk] at hok
    by_cases h2 : is_path_allowed fs.cwd fp config = true
    case neg =>
      exfalso
      have h2b : is_path_allowed fs.cwd fp config = false := by simpa using h2
      simp [lf_read_file, h1, h2b, ReadResult.isOk] at hok
    by_cases hex : fs.pyExists (resolveParsed fs.cwd (parsePath fp)) = true
    case neg =>
      exfalso
      have hexb : fs.pyExists (resolveParsed fs.cwd (parsePath fp)) = false := by simpa using hex
      simp [lf_read_file, h1, h2, hexb, ReadResult.isOk] at hok
    by_cases hif : fs.isFile (resolveParsed fs.cwd (parsePath fp)) = true
    case neg =>
      exfalso
      have hifb : fs.isFile (resolveParsed fs.cwd (parsePath fp)) = false := by simpa using hif
      simp [lf_read_file, h1, h2, hex, hifb, ReadResult.isOk] at hok
    by_cases h3 : is_file_allowed fs (parsePath fp) config = true
    case neg =>
      exfalso
      have h3b : is_file_allowed fs (parsePath fp) config = false := by simpa using h3
      simp [lf_read_file, h1, h2, hex, hif, h3b, ReadResult.isOk] at hok
    exact ⟨h2, h3⟩

theorem results_respect_path_and_file_policy_witness :
    is_path_allowed fsA.cwd "/data/a.txt" cfgA = true ∧
    is_file_allowed fsA (parsePath "/data/a.txt") cfgA = true :=
  (results_respect_path_and_file_policy cfgA fsA (by decide)).1 ""
    "/data" [⟨"a.txt", "/data/a.txt", "a.txt", 2, 7, ".txt"⟩] 1 (by decide)
    ⟨"a.txt", "/data/a.txt", "a.txt", 2, 7, ".txt"⟩ (by decide)

/-! ## C8: per-entry path metadata -/

/-- C8 counterexample: when the scanned directory is configured by a
relative string, the emitted `path` field is the relative join
`"data/a.txt"`, not the file's absolute path `"/home/data/a.txt"` — so
the claim that the metadata contains the file's absolute path for
relative directory strings is false on the code. -/
theorem lf_list_files_path_not_absolute_counterexample :
    (lf_list_files cfgRel fsR "").directories =
      [DirListing.listed "data" [⟨"a.txt", "data/a.txt", "a.txt", 2, 7, ".txt"⟩] 1] ∧
    ¬ ("data/a.txt".toList.head? = some '/') ∧
    resolvePath fsR.cwd "data/a.txt" = ["home", "data", "a.txt"] ∧
    renderPath ⟨true, resolvePath fsR.cwd "data/a.txt"⟩ = "/home/data/a.txt" ∧
    "data/a.txt" ≠ "/home/data/a.txt" := by
  decide

/-- C8 amended: each emitted entry carries, alongside name, size,
modification time and extension, the file's path formed by joining the
configured directory string with the path relative to the scanned root —
a path that is absolute exactly when the configured directory string is
absolute — together with that relative path itself. -/
theorem lf_list_files_entry_metadata (config : Config) (fs : FS) (dp : String)
    (hwf : fs.WF = true) :
    ∀ (d : String) (fl : List FileEntry) (n : Nat),
      DirListing.listed d fl n ∈ (lf_list_files config fs dp).directories →
      ∀ e ∈ fl, ∃ rel : List String, rel ≠ [] ∧
        e.path = renderPath ⟨(parsePath d).absolute, (parsePath d).parts ++ rel⟩ ∧
        e.relative_path = renderPath ⟨false, rel⟩ ∧
        ((parsePath d).absolute = true → e.path.toList.head? = some '/') ∧
        (∃ fd : FileData, (resolvePath fs.cwd d ++ rel, fd) ∈ fs.files ∧
          fd.statable = true ∧ e.size = fd.bytes.length ∧ e.modified = fd.mtime) ∧
        e.name = pathName ⟨(parsePath d).absolute, (parsePath d).parts ++ rel⟩ ∧
        e.extension = pathSuffix ⟨(parsePath d).absolute, (parsePath d).parts ++ rel⟩ := by
  intro d fl n hmem e he
  obtain ⟨a, hsc, hall, hgiven, hne⟩ := mem_directories_scanDir hmem
  obtain ⟨hd, rel, hrelne, hrelcanon, hpath, hrelpath, hparse, hres, hpol, hfd, hname, hext⟩ :=
    mem_scanDir_entry hwf hsc he
  subst hd
  refine ⟨rel, hrelne, hpath, hrelpath, ?_, hfd, hname, hext⟩
  intro habs
  rw [hpath, habs]
  simp [renderPath]

theorem lf_list_files_entry_metadata_witness :
    ∃ rel : List String, rel ≠ [] ∧
      (⟨"a.txt", "data/a.txt", "a.txt", 2, 7, ".txt"⟩ : FileEntry).path =
        renderPath ⟨(parsePath "data").absolute, (parsePath "data").parts ++ rel⟩ ∧
      (⟨"a.txt", "data/a.txt", "a.txt", 2, 7, ".txt"⟩ : FileEntry).relative_path =
        renderPath ⟨false, rel⟩ ∧
      ((parsePath "data").absolute = true →
        (⟨"a.txt", "data/a.txt", "a.txt", 2, 7, ".txt"⟩ : FileEntry).path.toList.head? =
          some '/') ∧
      (∃ fd : FileData, (resolvePath fsR.cwd "data" ++ rel, fd) ∈ fsR.files ∧
        fd.statable = true ∧
        (⟨"a.txt", "data/a.txt", "a.txt", 2, 7, ".txt"⟩ : FileEntry).size = fd.bytes.length ∧
        (⟨"a.txt", "data/a.txt", "a.txt", 2, 7, ".txt"⟩ : FileEntry).modified = fd.mtime) ∧
      (⟨"a.txt", "data/a.txt", "a.txt", 2, 7, ".txt"⟩ : FileEntry).name =
        pathName ⟨(parsePath "data").absolute, (parsePath "data").parts ++ rel⟩ ∧
      (⟨"a.txt", "data/a.txt", "a.txt", 2, 7, ".txt"⟩ : FileEntry).extension =
        pathSuffix ⟨(parsePath "data").absolute, (parsePath "data").parts ++ rel⟩ :=
  lf_list_files_entry_metadata cfgRel fsR "" (by decide) "data"
    [⟨"a.txt", "data/a.txt", "a.txt", 2, 7, ".txt"⟩] 1 (by decide)
    ⟨"a.txt", "data/a.txt", "a.txt", 2, 7, ".txt"⟩ (by decide)

/-! ## C7: layered configuration loading -/

theorem processLine_eq_parsedLine (c : Config) (line : String) :
    processLine c line = match parsedLine line with
      | none => Except.ok c
      | some kv => applyPair c kv := by
  simp only [processLine, parsedLine]
  generalize pyStrip line = l
  by_cases h1 : l = ""
  · subst h1
    rfl
  · by_cases h2 : (l.toList.head? == some '#') = true
    · simp only [h2, Bool.not_true, Bool.and_false]
      rw [if_neg h1]
      rfl
    · have h2f : (l.toList.head? == some '#') = false := by
        simpa using h2
      simp only [h2f, Bool.not_false, Bool.and_true]
      rw [if_neg h1]
      rw [show (decide (l ≠ "") : Bool) = true from by simp [h1]]
      by_cases h3 : l.toList.contains '=' = true
      · rw [if_pos h3, if_pos h3]
        rfl
      · rw [if_neg h3, if_neg h3]
        rfl

theorem fold_file_eq (lines : List String) (c : Config) :
    lines.foldlM processLine c = (lines.filterMap parsedLine).foldlM applyPair c := by
  induction lines generalizing c with
  | nil => rfl
  | cons l ls ih =>
    rw [List.foldlM_cons, processLine_eq_parsedLine]
    rcases hp : parsedLine l with _ | kv
    · rw [List.filterMap_cons_none hp]
      simp [Bind.bind, Except.bind, ih]
    · rw [List.filterMap_cons_some hp, List.foldlM_cons]
      rcases ha : applyPair c kv with e | c2
      · simp [ha, Bind.bind, Except.bind]
      · simp [ha, Bind.bind, Except.bind, ih]

/-- C7: `load_config` computes exactly the spec layering — the listed
defaults, overridden by the recognized `KEY=value` lines of the optional
settings file in order (blank and `#` lines ignored, quotes stripped,
comma lists trimmed with empties dropped), then by the environment
variables of the same three key names, which take final precedence. -/
theorem load_config_eq_spec_layering (envFile : Option (List String))
    (getenv : String → Option String) :
    load_config envFile getenv = specLoadConfig envFile getenv := by
  have hd : defaultConfig = specDefaults := by decide
  cases envFile with
  | none =>
    simp only [load_config, specLoadConfig, Option.getD, List.filterMap_nil, List.foldlM_nil, hd]
    rcases hm : envOverrideMax getenv (envOverrideDirs getenv specDefaults) with e | c2 <;>
      simp [hm, Bind.bind, Except.bind, Pure.pure, Except.pure, Except.map]
  | some lines =>
    simp only [load_config, specLoadConfig, Option.getD]
    rw [fold_file_eq, hd]
    rcases hf : (lines.filterMap parsedLine).foldlM applyPair specDefaults with e | c
    · simp [hf, Bind.bind, Except.bind]
    · rcases hm : envOverrideMax getenv (envOverrideDirs getenv c) with e2 | c2 <;>
        simp [hf, hm, Bind.bind, Except.bind, Pure.pure, Except.pure, Except.map]

end LocalFiles
